import Mathlib

/-!
Verification of the term auto-linking engine of `scripts/build_site.py`
(cat-mip terminology registry).

Strings of the Python source are modelled as `List Char`.  Each Lean
definition below is a shallow embedding of one Python function of the
source; loops with a position cursor are modelled by structural recursion
on a fuel argument that is always given at least `length + 1` units, so a
run that exhausts the fuel corresponds exactly to a Python loop iteration
that did not advance the cursor (and hence to a non-terminating Python
loop); such a run is reported as `none`.
-/

namespace BuildSite

/-- The backtick character, the inline code marker of the source. -/
def tickChar : Char := Char.ofNat 96

/-- The three-character fence marker of the source (three backticks). -/
def fenceMarker : List Char := [tickChar, tickChar, tickChar]

/-- Model of Python's regex class `\s` (ASCII range): the whitespace
characters recognised by `re.sub(r'\s+', '-', s)` in `slugify`. -/
def isPyWs (c : Char) : Bool :=
  c == ' ' || c == '\t' || c == '\n' || c == '\x0d' || c == '\x0b' || c == '\x0c'

/-- Characters kept by `slugify`'s class `[a-z0-9]` (after lowercasing). -/
def lowerAlnum (c : Char) : Bool :=
  ('a' ≤ c && c ≤ 'z') || ('0' ≤ c && c ≤ '9')

/-- Characters of the class `[a-z0-9-]` used by `re.sub(r'[^a-z0-9-]', '-', s)`. -/
def lowerAlnumHyph (c : Char) : Bool :=
  lowerAlnum c || c == '-'

/-- Worker for `collapseRuns`: the boolean records whether the previous
character belonged to a run being collapsed (Python's `re.sub(r'X+', rep, s)`
replaces each maximal run of `X`-characters by the single character `rep`). -/
def collapseRunsGo (p : Char → Bool) (rep : Char) : Bool → List Char → List Char
  | _, [] => []
  | b, c :: cs =>
    if p c then
      if b then collapseRunsGo p rep true cs
      else rep :: collapseRunsGo p rep true cs
    else c :: collapseRunsGo p rep false cs

/-- `re.sub(r'X+', rep, s)` for a one-character class `X`: every maximal run
of characters satisfying `p` becomes the single character `rep`. -/
def collapseRuns (p : Char → Bool) (rep : Char) (s : List Char) : List Char :=
  collapseRunsGo p rep false s

/-- Python's `str.strip(c)`: remove the character `c` from both ends. -/
def stripEnds (c : Char) (s : List Char) : List Char :=
  ((s.dropWhile (fun x => x == c)).reverse.dropWhile (fun x => x == c)).reverse

/-- Embedding of `slugify` (build_site.py lines 41-48):
`if not term: return "unknown"`, then lowercase, `\s+` runs to a single
hyphen, every character outside `[a-z0-9-]` to a hyphen (a one-character
class, so each offending character is replaced individually), hyphen runs
collapsed, and hyphens stripped from both ends. -/
def slugify (term : List Char) : List Char :=
  if term.isEmpty then "unknown".data
  else
    stripEnds '-'
      (collapseRuns (fun c => c == '-') '-'
        (((collapseRuns isPyWs '-' (term.map Char.toLower))).map
          (fun c => if lowerAlnumHyph c then c else '-')))

/-- The value stored in the Python dict `all_terms` for one term:
`{"display": term, "slug": slug, "folder": folder, "id": term_id}`. -/
structure TermInfo where
  display : List Char
  slug : List Char
  folder : List Char
  id : List Char
deriving DecidableEq, Repr

/-- One YAML record as seen by the collection loop of `main`
(build_site.py lines 329-349), after the `term`/`id`/folder fields have
been extracted. -/
structure RawRecord where
  term : List Char
  id : List Char
  folder : List Char
deriving DecidableEq, Repr

/-- The registry `all_terms`: a Python dict `str -> dict`, modelled as an
association list in insertion order (Python dicts preserve it). -/
abbrev Registry := List (List Char × TermInfo)

/-- Python dict assignment `d[k] = v`: an existing key keeps its position
and gets the new value; a new key is appended at the end. -/
def dictSet (d : Registry) (k : List Char) (v : TermInfo) : Registry :=
  if (List.lookup k d).isSome then
    d.map (fun kv => if kv.1 == k then (k, v) else kv)
  else d ++ [(k, v)]

/-- The duplicate-handling collection loop of `main` (lines 329-349):
for each record, `slug = slugify(term)`, `norm = term.lower()`; if `norm`
is already a key of `all_terms` a warning is printed and `slug += "-dup"`;
then in either case `all_terms[norm] = {...}` is executed.  The second
component accumulates the terms a duplicate warning was printed for. -/
def collectTermsGo (acc : Registry) (warns : List (List Char)) :
    List RawRecord → Registry × List (List Char)
  | [] => (acc, warns)
  | r :: rs =>
    let slug := slugify r.term
    let norm := r.term.map Char.toLower
    if (List.lookup norm acc).isSome then
      collectTermsGo
        (dictSet acc norm ⟨r.term, slug ++ "-dup".data, r.folder, r.id⟩)
        (warns ++ [r.term]) rs
    else
      collectTermsGo (dictSet acc norm ⟨r.term, slug, r.folder, r.id⟩) warns rs

/-- Registry collection over a list of records, starting from empty state. -/
def collectTerms (rs : List RawRecord) : Registry × List (List Char) :=
  collectTermsGo [] [] rs

/-- One element of the Python list `patterns`:
the tuple `(len(display), re.compile(...), info["slug"], info["folder"])`.
The compiled regex `\b re.escape(display) \b` with `re.IGNORECASE` is kept
as the literal `display` it was escaped from. -/
structure Pattern where
  plen : Nat
  display : List Char
  slug : List Char
  folder : List Char
deriving DecidableEq, Repr

/-- Stable insertion (earlier elements stay in front of equal-length later
ones) used to model Python's stable `list.sort(key=lambda x: -x[0])`. -/
def insertDesc (p : Pattern) : List Pattern → List Pattern
  | [] => [p]
  | q :: qs => if q.plen ≤ p.plen then p :: q :: qs else q :: insertDesc p qs

/-- Stable sort by `plen` descending: the unique permutation that is sorted
by the key descending and keeps the relative order of equal keys, which is
exactly what Python's stable `list.sort(key=lambda x: -x[0])` produces. -/
def sortDesc : List Pattern → List Pattern
  | [] => []
  | p :: ps => insertDesc p (sortDesc ps)

/-- The unsorted pattern list built by the loop of `_build_patterns`
(lines 53-61): registry entries whose slug equals `current_slug` are
skipped, the rest become tuples in registry insertion order. -/
def rawPatterns (all_terms : Registry) (current_slug : List Char) : List Pattern :=
  (all_terms.filter (fun kv => kv.2.slug ≠ current_slug)).map
    (fun kv => ⟨kv.2.display.length, kv.2.display, kv.2.slug, kv.2.folder⟩)

/-- Embedding of `_build_patterns` (lines 53-63): build the tuples, then
`patterns.sort(key=lambda x: -x[0])` (stable, longest first). -/
def _build_patterns (all_terms : Registry) (current_slug : List Char) : List Pattern :=
  sortDesc (rawPatterns all_terms current_slug)

/-- Python's `\w` (ASCII range): letters, digits and underscore. -/
def isWordChar (c : Char) : Bool := c.isAlphanum || c == '_'

/-- Whether position `i` of `s` holds a word character (out of range
counts as non-word, as in Python's `\b` semantics). -/
def wordAt (s : List Char) (i : Nat) : Bool :=
  match s[i]? with
  | some c => isWordChar c
  | none => false

/-- Python's `\b` at position `i` of `s`: the word-character status changes
between the character before `i` and the character at `i`. -/
def boundaryAt (s : List Char) (i : Nat) : Bool :=
  (decide (0 < i) && wordAt s (i - 1)) != wordAt s i

/-- Case folding used to model `re.IGNORECASE` on an escaped literal. -/
def foldLower (s : List Char) : List Char := s.map Char.toLower

/-- Python slicing `s[a:b]` (for `a ≤ b`). -/
def slice (s : List Char) (a b : Nat) : List Char := (s.drop a).take (b - a)

/-- `pat.match(prose, pos)` for the compiled pattern
`re.compile(r'\b' + re.escape(display) + r'\b', re.IGNORECASE)`:
succeeds iff `display.length` characters starting at `pos` match `display`
case-insensitively and Python word boundaries hold at both ends; on success
`m.span() = (pos, pos + display.length)`, and the end is returned. -/
def matchAt (prose : List Char) (pos : Nat) (display : List Char) : Option Nat :=
  if pos + display.length ≤ prose.length
      && boundaryAt prose pos
      && foldLower (slice prose pos (pos + display.length)) == foldLower display
      && boundaryAt prose (pos + display.length)
  then some (pos + display.length) else none

/-- The inner `for _length, pat, t_slug, t_folder in patterns` loop of
`_match_replace`: the first pattern whose regex matches at `pos` wins. -/
def tryPatterns (patterns : List Pattern) (prose : List Char) (pos : Nat) :
    Option (Pattern × Nat) :=
  match patterns with
  | [] => none
  | p :: ps =>
    match matchAt prose pos p.display with
    | some e => some (p, e)
    | none => tryPatterns ps prose pos

/-- The relative link target of `_match_replace` (line 77):
`f"../{t_folder}/{t_slug}.md" if t_folder != current_folder else f"{t_slug}.md"`. -/
def relPath (t_folder t_slug current_folder : List Char) : List Char :=
  if t_folder ≠ current_folder then
    "../".data ++ t_folder ++ "/".data ++ t_slug ++ ".md".data
  else t_slug ++ ".md".data

/-- The link markup emitted at line 78: `f"[{m.group(0)}]({rel})"`. -/
def mkLink (matched t_slug t_folder current_folder : List Char) : List Char :=
  "[".data ++ matched ++ "](".data ++ relPath t_folder t_slug current_folder ++ ")".data

/-- The `while pos < len(prose)` loop of `_match_replace` (lines 70-84).
On a match, `result.append(prose[pos:start])` appends the empty string
(the regex is anchored at `pos`, so `start == pos`), then the link markup
for `m.group(0) = prose[pos:end]` is appended and `pos = end`; on no match
the single character at `pos` is appended and `pos` advances by one.
A zero-width match (an empty `display`) gives `end = pos`: the cursor does
not advance and Python loops forever, which the fuel turns into `none`. -/
def matchReplaceAux (patterns : List Pattern) (current_folder : List Char)
    (prose : List Char) : Nat → Nat → Option (List Char)
  | 0, _ => none
  | fuel + 1, pos =>
    if prose.length ≤ pos then some []
    else
      match tryPatterns patterns prose pos with
      | some (p, e) =>
        (matchReplaceAux patterns current_folder prose fuel e).map
          (fun rest => mkLink (slice prose pos e) p.slug p.folder current_folder ++ rest)
      | none =>
        (matchReplaceAux patterns current_folder prose fuel (pos + 1)).map
          (fun rest => slice prose pos (pos + 1) ++ rest)

/-- Embedding of `_match_replace` (lines 65-85).  `current_slug` is a
parameter of the Python function but is not used in its body.  `none`
models a run of the Python loop that never terminates. -/
def _match_replace (prose : List Char) (patterns : List Pattern)
    (current_slug current_folder : List Char) : Option (List Char) :=
  if prose.isEmpty then some prose
  else matchReplaceAux patterns current_folder prose (prose.length + 1) 0

/-- `str.find(sub, ...)` helper: index of the first occurrence of `sub`
in `s`, or `none` (`sub` is always nonempty where this is used). -/
def findSubAux (sub : List Char) : List Char → Option Nat
  | [] => none
  | c :: cs =>
    if sub.isPrefixOf (c :: cs) then some 0
    else (findSubAux sub cs).map (· + 1)

/-- Python's `s.find(sub, pos)` (with `-1` rendered as `none`). -/
def findFrom (s sub : List Char) (pos : Nat) : Option Nat :=
  (findSubAux sub (s.drop pos)).map (· + pos)

/-- The `while pos < len(prose)` loop of the inner `linkify_prose`
(lines 99-110): find the next backtick; if none, rewrite the rest and stop;
otherwise rewrite the text before it; if no closing backtick exists, append
the rest verbatim (from the lone marker on) and stop; otherwise append the
span including both delimiters verbatim and continue after it. -/
def linkifyProseAux (patterns : List Pattern) (current_slug current_folder : List Char)
    (prose : List Char) : Nat → Nat → Option (List Char)
  | 0, _ => none
  | fuel + 1, pos =>
    if prose.length ≤ pos then some []
    else
      match findFrom prose [tickChar] pos with
      | none => _match_replace (prose.drop pos) patterns current_slug current_folder
      | some code_start =>
        match _match_replace (slice prose pos code_start) patterns current_slug current_folder with
        | none => none
        | some seg =>
          match findFrom prose [tickChar] (code_start + 1) with
          | none => some (seg ++ prose.drop code_start)
          | some code_end =>
            (linkifyProseAux patterns current_slug current_folder prose fuel (code_end + 1)).map
              (fun rest => seg ++ slice prose code_start (code_end + 1) ++ rest)

/-- Embedding of the inner `linkify_prose` (lines 94-111). -/
def linkify_prose (patterns : List Pattern) (current_slug current_folder : List Char)
    (prose : List Char) : Option (List Char) :=
  if prose.isEmpty then some prose
  else linkifyProseAux patterns current_slug current_folder prose (prose.length + 1) 0

/-- The `while pos < len(text)` fence loop of `linkify` (lines 116-128):
find the next `` ``` `` marker; if none, linkify the rest as prose and stop;
otherwise linkify the text before it; if no closing marker exists, append
the rest verbatim and stop; otherwise append the fenced block including
both markers verbatim and continue after it. -/
def linkifyAux (patterns : List Pattern) (current_slug current_folder : List Char)
    (text : List Char) : Nat → Nat → Option (List Char)
  | 0, _ => none
  | fuel + 1, pos =>
    if text.length ≤ pos then some []
    else
      match findFrom text fenceMarker pos with
      | none => linkify_prose patterns current_slug current_folder (text.drop pos)
      | some fence_start =>
        match linkify_prose patterns current_slug current_folder (slice text pos fence_start) with
        | none => none
        | some seg =>
          match findFrom text fenceMarker (fence_start + 3) with
          | none => some (seg ++ text.drop fence_start)
          | some fence_end =>
            (linkifyAux patterns current_slug current_folder text fuel (fence_end + 3)).map
              (fun rest => seg ++ slice text fence_start (fence_end + 3) ++ rest)

/-- Embedding of `linkify` (lines 87-129):
`if not text or not all_terms: return text`, then compile the patterns and
run the fence loop.  `none` models a non-terminating run. -/
def linkify (text : List Char) (all_terms : Registry)
    (current_slug current_folder : List Char) : Option (List Char) :=
  if text.isEmpty || all_terms.isEmpty then some text
  else
    linkifyAux (_build_patterns all_terms current_slug) current_slug current_folder
      text (text.length + 1) 0

/-- A text segment of the split the loops of `linkify` perform:
`pr` segments are handed to `_match_replace`, `code` segments (inline
spans with their backticks, fenced blocks with their markers, and
unterminated tails) are copied verbatim. -/
inductive Seg where
  | pr (s : List Char) : Seg
  | code (s : List Char) : Seg
deriving DecidableEq, Repr

/-- The segments the inner `linkify_prose` loop cuts a fence-free chunk
into, read off from the same scan (same finds, same slices). -/
def inlineSegsAux (prose : List Char) : Nat → Nat → List Seg
  | 0, _ => []
  | fuel + 1, pos =>
    if prose.length ≤ pos then []
    else
      match findFrom prose [tickChar] pos with
      | none => [.pr (prose.drop pos)]
      | some code_start =>
        match findFrom prose [tickChar] (code_start + 1) with
        | none => [.pr (slice prose pos code_start), .code (prose.drop code_start)]
        | some code_end =>
          .pr (slice prose pos code_start) ::
            .code (slice prose code_start (code_end + 1)) ::
              inlineSegsAux prose fuel (code_end + 1)

/-- Segment decomposition of a fence-free chunk. -/
def inlineSegs (prose : List Char) : List Seg :=
  inlineSegsAux prose (prose.length + 1) 0

/-- The segments the fence loop of `linkify` cuts the whole text into,
the chunks between fences further cut by `inlineSegs`. -/
def fenceSegsAux (text : List Char) : Nat → Nat → List Seg
  | 0, _ => []
  | fuel + 1, pos =>
    if text.length ≤ pos then []
    else
      match findFrom text fenceMarker pos with
      | none => inlineSegs (text.drop pos)
      | some fence_start =>
        match findFrom text fenceMarker (fence_start + 3) with
        | none => inlineSegs (slice text pos fence_start) ++ [.code (text.drop fence_start)]
        | some fence_end =>
          inlineSegs (slice text pos fence_start) ++
            (.code (slice text fence_start (fence_end + 3)) ::
              fenceSegsAux text fuel (fence_end + 3))

/-- Segment decomposition of a full input text. -/
def fenceSegs (text : List Char) : List Seg :=
  fenceSegsAux text (text.length + 1) 0

/-- How one segment is rendered: a `pr` segment goes through
`_match_replace`, a `code` segment is reproduced byte-for-byte. -/
def segRewrite (patterns : List Pattern) (current_slug current_folder : List Char) :
    Seg → Option (List Char)
  | .pr s => _match_replace s patterns current_slug current_folder
  | .code s => some s

/-- Concatenation of the renderings of a list of segments (`none` as soon
as one segment's rendering is `none`). -/
def segsRewrite (patterns : List Pattern) (current_slug current_folder : List Char) :
    List Seg → Option (List Char)
  | [] => some []
  | sg :: sgs =>
    (segRewrite patterns current_slug current_folder sg).bind
      (fun a =>
        (segsRewrite patterns current_slug current_folder sgs).map
          (fun b => a ++ b))

/-- The amended description of `slugify` (claim C4 corrected): lowercase,
then every character that is not a lowercase letter or digit — whitespace
and all other non-alphanumerics alike — is replaced by a hyphen, hyphen
runs are collapsed, hyphens are trimmed from both ends; empty input gives
the fallback slug. -/
def slugifyAmended (term : List Char) : List Char :=
  if term.isEmpty then "unknown".data
  else
    stripEnds '-'
      (collapseRuns (fun c => c == '-') '-'
        (term.map (fun c =>
          if lowerAlnum (Char.toLower c) then Char.toLower c else '-')))

/-- Definition following claim C4's words: lowercase, whitespace runs to a
single hyphen, non-alphanumeric characters STRIPPED (removed), hyphen runs
collapsed, ends trimmed; empty or unmappable input yields the reserved
fallback slug. -/
def slugifyClaimC4 (term : List Char) : List Char :=
  let s :=
    stripEnds '-'
      (collapseRuns (fun c => c == '-') '-'
        ((collapseRuns isPyWs '-' (term.map Char.toLower)).filter lowerAlnumHyph))
  if s.isEmpty then "unknown".data else s

/-! ### Basic facts about `slice` and `findFrom` -/

theorem slice_append_drop (s : List Char) (a m : Nat) (h : a ≤ m) :
    slice s a m ++ s.drop m = s.drop a := by
  have h2 : s.drop m = (s.drop a).drop (m - a) := by
    rw [List.drop_drop]
    congr 1
    omega
  rw [slice, h2, List.take_append_drop]

theorem isPrefixOf_length_le (sub : List Char) :
    ∀ t : List Char, sub.isPrefixOf t = true → sub.length ≤ t.length := by
  induction sub with
  | nil => intro t _; simp
  | cons c cs ih =>
    intro t h
    cases t with
    | nil => cases h
    | cons d ds =>
      rw [List.isPrefixOf] at h
      simp only [Bool.and_eq_true] at h
      simp only [List.length_cons]
      exact Nat.succ_le_succ (ih ds h.2)

theorem findSubAux_some_bounds {sub t : List Char} {j : Nat}
    (h : findSubAux sub t = some j) : j < t.length ∧ j + sub.length ≤ t.length := by
  induction t generalizing j with
  | nil => simp [findSubAux] at h
  | cons c cs ih =>
    rw [findSubAux] at h
    split at h
    · next hp =>
      have hj : j = 0 := by injection h with h; omega
      subst hj
      have hlen := isPrefixOf_length_le sub (c :: cs) hp
      constructor
      · simp
      · simpa using hlen
    · cases hj : findSubAux sub cs with
      | none => rw [hj] at h; simp at h
      | some j' =>
        rw [hj] at h
        simp only [Option.map_some', Option.some.injEq] at h
        obtain ⟨h1, h2⟩ := ih hj
        simp only [List.length_cons]
        omega

theorem findFrom_some_bounds {s sub : List Char} {pos i : Nat}
    (h : findFrom s sub pos = some i) :
    pos ≤ i ∧ i < s.length ∧ i + sub.length ≤ s.length := by
  rw [findFrom] at h
  cases hj : findSubAux sub (s.drop pos) with
  | none => rw [hj] at h; simp at h
  | some j =>
    rw [hj] at h
    simp only [Option.map_some', Option.some.injEq] at h
    obtain ⟨h1, h2⟩ := findSubAux_some_bounds hj
    have hd : (s.drop pos).length = s.length - pos := List.length_drop pos s
    omega

/-! ### With no compiled patterns every loop is the identity -/

theorem matchReplaceAux_nil (cf s : List Char) :
    ∀ fuel pos, pos ≤ s.length → s.length + 1 ≤ fuel + pos →
      matchReplaceAux [] cf s fuel pos = some (s.drop pos) := by
  intro fuel
  induction fuel with
  | zero => intro pos h1 h2; omega
  | succ fuel ih =>
    intro pos h1 h2
    rcases Nat.eq_or_lt_of_le h1 with heq | hlt
    · subst heq
      rw [matchReplaceAux, if_pos (le_refl _), List.drop_length]
    · rw [matchReplaceAux, if_neg (by omega)]
      simp only [tryPatterns]
      rw [ih (pos + 1) (by omega) (by omega)]
      simp only [Option.map_some']
      rw [slice_append_drop s pos (pos + 1) (by omega)]

theorem mr_nil (u v s : List Char) : _match_replace s [] u v = some s := by
  rw [_match_replace]
  split
  · rfl
  · rw [matchReplaceAux_nil v s (s.length + 1) 0 (by omega) (by omega), List.drop_zero]

theorem lpAux_nil (u v s : List Char) :
    ∀ fuel pos, pos ≤ s.length → s.length + 1 ≤ fuel + pos →
      linkifyProseAux [] u v s fuel pos = some (s.drop pos) := by
  intro fuel
  induction fuel with
  | zero => intro pos h1 h2; omega
  | succ fuel ih =>
    intro pos h1 h2
    rcases Nat.eq_or_lt_of_le h1 with heq | hlt
    · subst heq
      rw [linkifyProseAux, if_pos (le_refl _), List.drop_length]
    · rw [linkifyProseAux, if_neg (by omega)]
      cases hf : findFrom s [tickChar] pos with
      | none => exact mr_nil u v (s.drop pos)
      | some c0 =>
        dsimp only
        obtain ⟨hc1, hc2, hc3⟩ := findFrom_some_bounds hf
        cases hm : _match_replace (slice s pos c0) [] u v with
        | none => rw [mr_nil] at hm; cases hm
        | some seg =>
          rw [mr_nil] at hm
          injection hm with hseg
          subst hseg
          dsimp only
          cases hf2 : findFrom s [tickChar] (c0 + 1) with
          | none => rw [slice_append_drop s pos c0 hc1]
          | some c1 =>
            dsimp only
            obtain ⟨hd1, hd2, hd3⟩ := findFrom_some_bounds hf2
            rw [ih (c1 + 1) (by omega) (by omega)]
            simp only [Option.map_some']
            rw [List.append_assoc, slice_append_drop s c0 (c1 + 1) (by omega),
              slice_append_drop s pos c0 hc1]

theorem lp_nil (u v s : List Char) : linkify_prose [] u v s = some s := by
  rw [linkify_prose]
  split
  · rfl
  · rw [lpAux_nil u v s (s.length + 1) 0 (by omega) (by omega), List.drop_zero]

theorem laux_nil (u v s : List Char) :
    ∀ fuel pos, pos ≤ s.length → s.length + 1 ≤ fuel + pos →
      linkifyAux [] u v s fuel pos = some (s.drop pos) := by
  intro fuel
  induction fuel with
  | zero => intro pos h1 h2; omega
  | succ fuel ih =>
    intro pos h1 h2
    rcases Nat.eq_or_lt_of_le h1 with heq | hlt
    · subst heq
      rw [linkifyAux, if_pos (le_refl _), List.drop_length]
    · rw [linkifyAux, if_neg (by omega)]
      cases hf : findFrom s fenceMarker pos with
      | none => exact lp_nil u v (s.drop pos)
      | some f0 =>
        dsimp only
        obtain ⟨hc1, hc2, hc3⟩ := findFrom_some_bounds hf
        cases hm : linkify_prose [] u v (slice s pos f0) with
        | none => rw [lp_nil] at hm; cases hm
        | some seg =>
          rw [lp_nil] at hm
          injection hm with hseg
          subst hseg
          dsimp only
          cases hf2 : findFrom s fenceMarker (f0 + 3) with
          | none => rw [slice_append_drop s pos f0 hc1]
          | some f1 =>
            dsimp only
            obtain ⟨hd1, hd2, hd3⟩ := findFrom_some_bounds hf2
            have hm3 : fenceMarker.length = 3 := rfl
            rw [ih (f1 + 3) (by omega) (by omega)]
            simp only [Option.map_some']
            rw [List.append_assoc, slice_append_drop s f0 (f1 + 3) (by omega),
              slice_append_drop s pos f0 hc1]

/-- C10: if the compiled pattern list is empty — in particular when the
registry is non-empty but every entry's slug equals the current page's
slug, so every entry is excluded as a self-link — `linkify` returns its
input text unchanged: the character-by-character rewrite loop with no
patterns is the identity on every prose segment, and the split segments
reassemble to the original text. -/
theorem linkify_no_patterns_identity (text : List Char) (ts : Registry)
    (cs cf : List Char) (h : _build_patterns ts cs = []) :
    linkify text ts cs cf = some text := by
  rw [linkify]
  split
  · rfl
  · rw [h, laux_nil cs cf text (text.length + 1) 0 (by omega) (by omega),
      List.drop_zero]

/-- Registry for the C10 witness: one entry whose slug is the current
page's slug, so the compiled pattern list is empty. -/
def tsC10 : Registry :=
  [("agent".data, ⟨"Agent".data, "agent".data, "accepted".data, "T1".data⟩)]

/-- Witness for C10 at a concrete input: the registry is non-empty, every
entry is excluded as a self-link, and the text comes back unchanged. -/
theorem linkify_no_patterns_identity_witness :
    _build_patterns tsC10 "agent".data = [] ∧
      linkify "An Agent acts.".data tsC10 "agent".data "accepted".data =
        some "An Agent acts.".data :=
  ⟨by decide,
    linkify_no_patterns_identity "An Agent acts.".data tsC10 "agent".data
      "accepted".data (by decide)⟩

/-! ### Facts about matching and pattern selection -/

theorem optMap_isSome {α β : Type} (f : α → β) (o : Option α) :
    (Option.map f o).isSome = o.isSome := by
  cases o <;> rfl

theorem matchAt_some_facts {s d : List Char} {pos e : Nat}
    (h : matchAt s pos d = some e) :
    e = pos + d.length ∧ pos + d.length ≤ s.length ∧ boundaryAt s pos = true ∧
      foldLower (slice s pos (pos + d.length)) = foldLower d ∧
      boundaryAt s (pos + d.length) = true := by
  rw [matchAt] at h
  split at h
  · next hc =>
    injection h with he
    simp only [Bool.and_eq_true, decide_eq_true_eq, beq_iff_eq] at hc
    exact ⟨he.symm, hc.1.1.1, hc.1.1.2, hc.1.2, hc.2⟩
  · cases h

theorem tryPatterns_some {ps : List Pattern} {s : List Char} {pos : Nat}
    {p : Pattern} {e : Nat} (h : tryPatterns ps s pos = some (p, e)) :
    p ∈ ps ∧ matchAt s pos p.display = some e := by
  induction ps with
  | nil => simp [tryPatterns] at h
  | cons q qs ih =>
    rw [tryPatterns] at h
    cases hm : matchAt s pos q.display with
    | some e' =>
      rw [hm] at h
      injection h with h
      injection h with h1 h2
      subst h1
      subst h2
      exact ⟨List.mem_cons_self q qs, hm⟩
    | none =>
      rw [hm] at h
      obtain ⟨h1, h2⟩ := ih h
      exact ⟨List.mem_cons_of_mem q h1, h2⟩

/-! ### Termination: with nonempty display names every loop finishes -/

theorem matchReplaceAux_total {ps : List Pattern} (cf s : List Char)
    (hps : ∀ p ∈ ps, p.display ≠ []) :
    ∀ fuel pos, pos ≤ s.length → s.length + 1 ≤ fuel + pos →
      (matchReplaceAux ps cf s fuel pos).isSome = true := by
  intro fuel
  induction fuel with
  | zero => intro pos h1 h2; omega
  | succ fuel ih =>
    intro pos h1 h2
    rcases Nat.eq_or_lt_of_le h1 with heq | hlt
    · subst heq
      rw [matchReplaceAux, if_pos (le_refl _)]
      rfl
    · rw [matchReplaceAux, if_neg (by omega)]
      cases ht : tryPatterns ps s pos with
      | none =>
        dsimp only
        rw [optMap_isSome]
        exact ih (pos + 1) (by omega) (by omega)
      | some pe =>
        obtain ⟨p, e⟩ := pe
        dsimp only
        obtain ⟨hmem, hma⟩ := tryPatterns_some ht
        obtain ⟨he, hle, -⟩ := matchAt_some_facts hma
        have hdl : 0 < p.display.length := List.length_pos.2 (hps p hmem)
        rw [optMap_isSome]
        exact ih e (by omega) (by omega)

theorem mr_total {ps : List Pattern} (u v s : List Char)
    (hps : ∀ p ∈ ps, p.display ≠ []) :
    (_match_replace s ps u v).isSome = true := by
  rw [_match_replace]
  split
  · rfl
  · exact matchReplaceAux_total v s hps (s.length + 1) 0 (by omega) (by omega)

theorem lpAux_total {ps : List Pattern} (u v s : List Char)
    (hps : ∀ p ∈ ps, p.display ≠ []) :
    ∀ fuel pos, pos ≤ s.length → s.length + 1 ≤ fuel + pos →
      (linkifyProseAux ps u v s fuel pos).isSome = true := by
  intro fuel
  induction fuel with
  | zero => intro pos h1 h2; omega
  | succ fuel ih =>
    intro pos h1 h2
    rcases Nat.eq_or_lt_of_le h1 with heq | hlt
    · subst heq
      rw [linkifyProseAux, if_pos (le_refl _)]
      rfl
    · rw [linkifyProseAux, if_neg (by omega)]
      cases hf : findFrom s [tickChar] pos with
      | none => exact mr_total u v (s.drop pos) hps
      | some c0 =>
        dsimp only
        obtain ⟨hc1, hc2, hc3⟩ := findFrom_some_bounds hf
        cases hm : _match_replace (slice s pos c0) ps u v with
        | none =>
          have := mr_total u v (slice s pos c0) hps
          rw [hm] at this
          cases this
        | some seg =>
          dsimp only
          cases hf2 : findFrom s [tickChar] (c0 + 1) with
          | none => rfl
          | some c1 =>
            dsimp only
            obtain ⟨hd1, hd2, hd3⟩ := findFrom_some_bounds hf2
            rw [optMap_isSome]
            exact ih (c1 + 1) (by omega) (by omega)

theorem lp_total {ps : List Pattern} (u v s : List Char)
    (hps : ∀ p ∈ ps, p.display ≠ []) :
    (linkify_prose ps u v s).isSome = true := by
  rw [linkify_prose]
  split
  · rfl
  · exact lpAux_total u v s hps (s.length + 1) 0 (by omega) (by omega)

theorem laux_total {ps : List Pattern} (u v s : List Char)
    (hps : ∀ p ∈ ps, p.display ≠ []) :
    ∀ fuel pos, pos ≤ s.length → s.length + 1 ≤ fuel + pos →
      (linkifyAux ps u v s fuel pos).isSome = true := by
  intro fuel
  induction fuel with
  | zero => intro pos h1 h2; omega
  | succ fuel ih =>
    intro pos h1 h2
    rcases Nat.eq_or_lt_of_le h1 with heq | hlt
    · subst heq
      rw [linkifyAux, if_pos (le_refl _)]
      rfl
    · rw [linkifyAux, if_neg (by omega)]
      cases hf : findFrom s fenceMarker pos with
      | none => exact lp_total u v (s.drop pos) hps
      | some f0 =>
        dsimp only
        obtain ⟨hc1, hc2, hc3⟩ := findFrom_some_bounds hf
        cases hm : linkify_prose ps u v (slice s pos f0) with
        | none =>
          have := lp_total u v (slice s pos f0) hps
          rw [hm] at this
          cases this
        | some seg =>
          dsimp only
          cases hf2 : findFrom s fenceMarker (f0 + 3) with
          | none => rfl
          | some f1 =>
            dsimp only
            obtain ⟨hd1, hd2, hd3⟩ := findFrom_some_bounds hf2
            have hm3 : fenceMarker.length = 3 := rfl
            rw [optMap_isSome]
            exact ih (f1 + 3) (by omega) (by omega)

/-! ### Membership through the stable sort and the compiled patterns -/

theorem mem_insertDesc {x p : Pattern} {l : List Pattern} :
    x ∈ insertDesc p l ↔ x = p ∨ x ∈ l := by
  induction l with
  | nil => simp [insertDesc]
  | cons q qs ih =>
    rw [insertDesc]
    split
    · simp [List.mem_cons]
    · simp only [List.mem_cons, ih]
      tauto

theorem mem_sortDesc {x : Pattern} {l : List Pattern} :
    x ∈ sortDesc l ↔ x ∈ l := by
  induction l with
  | nil => simp [sortDesc]
  | cons p ps ih =>
    rw [sortDesc, mem_insertDesc]
    simp [List.mem_cons, ih]

theorem mem_rawPatterns {p : Pattern} {ts : Registry} {cs : List Char}
    (h : p ∈ rawPatterns ts cs) :
    p.slug ≠ cs ∧ ∃ kv ∈ ts, p.display = kv.2.display ∧ p.slug = kv.2.slug := by
  rw [rawPatterns] at h
  simp only [List.mem_map, List.mem_filter] at h
  obtain ⟨kv, ⟨hmem, hslug⟩, hp⟩ := h
  subst hp
  simp only [decide_eq_true_eq] at hslug
  exact ⟨hslug, kv, hmem, rfl, rfl⟩

/-- C9 (corrected): `linkify` terminates with a string result on every
input text, every current slug and folder, and every registry whose
entries all have a nonempty display name — each scanning loop strictly
advances its cursor.  (The claim's unrestricted quantification over
registries fails: an empty display name compiles to the zero-width regex
`\b\b`, whose match does not advance the cursor; see the counterexample.) -/
theorem linkify_total_nonempty_displays (text : List Char) (ts : Registry)
    (cs cf : List Char) (hts : ∀ kv ∈ ts, kv.2.display ≠ []) :
    (linkify text ts cs cf).isSome = true := by
  rw [linkify]
  split
  · rfl
  · have hps : ∀ p ∈ _build_patterns ts cs, p.display ≠ [] := by
      intro p hp
      rw [_build_patterns, mem_sortDesc] at hp
      obtain ⟨-, kv, hkv, hdisp, -⟩ := mem_rawPatterns hp
      rw [hdisp]
      exact hts kv hkv
    exact laux_total cs cf text hps (text.length + 1) 0 (by omega) (by omega)

/-- A registry with an empty display name, as the collection loop would
build from a YAML record with `term: ""` (its slug is `slugify "" =
"unknown"`). -/
def tsC9 : Registry := [([], ⟨[], "unknown".data, "accepted".data, "T1".data⟩)]

/-- Counterexample to C9 as stated: with an entry whose display name is
empty, the compiled pattern `\b\b` matches with zero width at position 0
of `"a"`, the cursor never advances, and the rewrite loop never
terminates (modelled as `none`), so `linkify` is not total over arbitrary
registries. -/
theorem linkify_not_total_empty_display :
    linkify "a".data tsC9 "x".data "accepted".data = none := by decide

/-- Registry used by several concrete inputs: the terms "Agent" and
"AI Agent", both in folder "accepted". -/
def tsMain : Registry :=
  [("agent".data, ⟨"Agent".data, "agent".data, "accepted".data, "T1".data⟩),
   ("ai agent".data, ⟨"AI Agent".data, "ai-agent".data, "accepted".data, "T2".data⟩)]

/-- Witness for C9 (corrected) at a concrete input: all display names of
`tsMain` are nonempty, and `linkify` returns a result. -/
theorem linkify_total_nonempty_displays_witness :
    (∀ kv ∈ tsMain, kv.2.display ≠ []) ∧
      (linkify "a `b".data tsMain "x".data "draft".data).isSome = true :=
  ⟨by decide,
    linkify_total_nonempty_displays "a `b".data tsMain "x".data "draft".data
      (by decide)⟩

/-- C6: no self-links.  Whatever pattern the rewriter selects at any
cursor position of any prose — the pattern whose slug becomes the target
of the emitted link — has a target slug different from the current page's
slug, because `_build_patterns` removes the entry whose slug equals the
exclude slug before compiling; the second conjunct pins down that the link
the loop then emits is built from exactly that pattern's slug. -/
theorem linkify_no_self_links (ts : Registry) (cs cf s : List Char)
    (pos fuel : Nat) (p : Pattern) (e : Nat)
    (h : tryPatterns (_build_patterns ts cs) s pos = some (p, e))
    (hpos : pos < s.length) :
    p.slug ≠ cs ∧
      matchReplaceAux (_build_patterns ts cs) cf s (fuel + 1) pos =
        (matchReplaceAux (_build_patterns ts cs) cf s fuel e).map
          (fun rest => mkLink (slice s pos e) p.slug p.folder cf ++ rest) := by
  constructor
  · obtain ⟨hmem, -⟩ := tryPatterns_some h
    rw [_build_patterns, mem_sortDesc] at hmem
    exact (mem_rawPatterns hmem).1
  · rw [matchReplaceAux, if_neg (by omega), h]

/-- Witness for C6 at a concrete input: on the page with slug "x", the
pattern selected at position 1 of `" Agent"` is the "Agent" pattern, its
target slug "agent" differs from "x", and the loop emits its link. -/
theorem linkify_no_self_links_witness :
    (tryPatterns (_build_patterns tsMain "x".data) " Agent".data 1 =
        some (⟨5, "Agent".data, "agent".data, "accepted".data⟩, 6)) ∧
      ("agent".data ≠ "x".data ∧
        matchReplaceAux (_build_patterns tsMain "x".data) "accepted".data
            " Agent".data 6 1 =
          (matchReplaceAux (_build_patterns tsMain "x".data) "accepted".data
              " Agent".data 5 6).map
            (fun rest =>
              mkLink (slice " Agent".data 1 6) "agent".data "accepted".data
                  "accepted".data ++ rest)) :=
  ⟨by decide,
    linkify_no_self_links tsMain "x".data "accepted".data " Agent".data 1 5
      ⟨5, "Agent".data, "agent".data, "accepted".data⟩ 6 (by decide) (by decide)⟩

/-- C8: exact link form.  When the rewriter selects pattern `p` at
position `pos`, the match ends at `pos + p.display.length`, the matched
substring of the input equals `p.display` up to lowercasing (the match is
case-insensitive), Python word boundaries hold at both ends (the match is
whole-word), and the emitted chunk is exactly
`[` ++ matched-input-text-verbatim ++ `](` ++ relative-path ++ `)`,
where the relative path is `slug ++ ".md"` when the pattern's folder is
the current folder and `../folder/slug.md` otherwise (`relPath`). -/
theorem link_markup_exact_form (ps : List Pattern) (cf s : List Char)
    (pos fuel : Nat) (p : Pattern) (e : Nat)
    (h : tryPatterns ps s pos = some (p, e)) (hpos : pos < s.length) :
    e = pos + p.display.length ∧
      foldLower (slice s pos e) = foldLower p.display ∧
      boundaryAt s pos = true ∧ boundaryAt s e = true ∧
      matchReplaceAux ps cf s (fuel + 1) pos =
        (matchReplaceAux ps cf s fuel e).map
          (fun rest =>
            "[".data ++ slice s pos e ++ "](".data ++
              relPath p.folder p.slug cf ++ ")".data ++ rest) := by
  obtain ⟨-, hma⟩ := tryPatterns_some h
  obtain ⟨he, hle, hb1, hfold, hb2⟩ := matchAt_some_facts hma
  subst he
  refine ⟨rfl, hfold, hb1, hb2, ?_⟩
  rw [matchReplaceAux, if_neg (by omega), h]
  rfl

/-- Witness for C8 at a concrete input: in `"an agent"` (all lowercase)
the pattern for display name "Agent" matches at position 3; the emitted
link text is the verbatim input slice `"agent"` (original casing), at
target `agent.md` (same folder). -/
theorem link_markup_exact_form_witness :
    (tryPatterns [⟨5, "Agent".data, "agent".data, "accepted".data⟩]
        "an agent".data 3 =
      some (⟨5, "Agent".data, "agent".data, "accepted".data⟩, 8)) ∧
      (8 = 3 + "Agent".data.length ∧
        foldLower (slice "an agent".data 3 8) = foldLower "Agent".data ∧
        boundaryAt "an agent".data 3 = true ∧ boundaryAt "an agent".data 8 = true ∧
        matchReplaceAux [⟨5, "Agent".data, "agent".data, "accepted".data⟩]
            "accepted".data "an agent".data 9 3 =
          (matchReplaceAux [⟨5, "Agent".data, "agent".data, "accepted".data⟩]
              "accepted".data "an agent".data 8 8).map
            (fun rest =>
              "[".data ++ slice "an agent".data 3 8 ++ "](".data ++
                relPath "accepted".data "agent".data "accepted".data ++
                  ")".data ++ rest)) :=
  ⟨by decide,
    link_markup_exact_form [⟨5, "Agent".data, "agent".data, "accepted".data⟩]
      "accepted".data "an agent".data 3 8
      ⟨5, "Agent".data, "agent".data, "accepted".data⟩ 8 (by decide) (by decide)⟩

/-- C5: longest-match precedence.  With both "Agent" and "AI Agent" known
(and neither excluded on page "acts"), the text `"An AI Agent acts."`
comes back with exactly one link, covering the full span "AI Agent"; the
substring "Agent" inside the consumed match is not linked separately,
because the compiled patterns try the longer display name first and the
cursor jumps past the whole match. -/
theorem longest_match_precedence :
    linkify "An AI Agent acts.".data tsMain "acts".data "accepted".data =
      some "An [AI Agent](ai-agent.md) acts.".data := by decide

/-- C2 (corrected): a lone inline marker with no later closing marker in a
fence-free text does NOT fall back to literal prose.  Everything from the
lone marker to the end of the region is emitted verbatim (treated as
opaque): only the text strictly before the marker is rewritten, so known
terms after the lone marker are not linked. -/
theorem lone_tick_tail_verbatim (text : List Char) (ts : Registry)
    (cs cf : List Char) (i : Nat)
    (hfence : findFrom text fenceMarker 0 = none)
    (h1 : findFrom text [tickChar] 0 = some i)
    (h2 : findFrom text [tickChar] (i + 1) = none)
    (htext : text ≠ []) (hts : ts ≠ []) :
    linkify text ts cs cf =
      (_match_replace (slice text 0 i) (_build_patterns ts cs) cs cf).map
        (fun seg => seg ++ text.drop i) := by
  have hte : text.isEmpty = false := by
    cases text
    · exact absurd rfl htext
    · rfl
  have htse : ts.isEmpty = false := by
    cases ts
    · exact absurd rfl hts
    · rfl
  have hlen : 0 < text.length := List.length_pos.2 htext
  rw [linkify, if_neg (by simp [hte, htse])]
  rw [linkifyAux, if_neg (by omega), hfence]
  dsimp only
  rw [List.drop_zero, linkify_prose, if_neg (by simp [hte])]
  rw [linkifyProseAux, if_neg (by omega), h1]
  dsimp only
  cases hm : _match_replace (slice text 0 i) (_build_patterns ts cs) cs cf with
  | none => rfl
  | some seg =>
    dsimp only
    rw [h2]
    rfl

/-- Witness for C2 (corrected) at a concrete input: in `"see ` Agent"`
the backtick at position 4 has no closing marker; only `"see "` is
rewritten and the tail `"` Agent"` is appended verbatim. -/
theorem lone_tick_tail_verbatim_witness :
    (findFrom "see ` Agent".data fenceMarker 0 = none ∧
      findFrom "see ` Agent".data [tickChar] 0 = some 4 ∧
      findFrom "see ` Agent".data [tickChar] 5 = none) ∧
      linkify "see ` Agent".data tsMain "x".data "accepted".data =
        (_match_replace (slice "see ` Agent".data 0 4)
            (_build_patterns tsMain "x".data) "x".data "accepted".data).map
          (fun seg => seg ++ List.drop 4 "see ` Agent".data) :=
  ⟨by decide,
    lone_tick_tail_verbatim "see ` Agent".data tsMain "x".data "accepted".data 4
      (by decide) (by decide) (by decide) (by decide) (by decide)⟩

/-- Counterexample to C2 as stated: `"` Agent"` holds a lone inline marker
followed by the known, linkable term "Agent", yet `linkify` returns the
input unchanged — the term after the lone marker is not matched; the same
text without the marker does get its link, so the non-linking is caused by
the lone marker making the tail opaque. -/
theorem lone_tick_not_literal_prose :
    linkify "` Agent".data tsMain "x".data "accepted".data =
        some "` Agent".data ∧
      linkify " Agent".data tsMain "x".data "accepted".data =
        some " [Agent](agent.md)".data := by decide

/-! ### The loops of `linkify` compute the segment-wise rendering -/

theorem segsRewrite_append (ps : List Pattern) (u v : List Char) (l₁ l₂ : List Seg) :
    segsRewrite ps u v (l₁ ++ l₂) =
      (segsRewrite ps u v l₁).bind
        (fun a => (segsRewrite ps u v l₂).map (fun b => a ++ b)) := by
  induction l₁ with
  | nil =>
    simp only [List.nil_append, segsRewrite]
    cases segsRewrite ps u v l₂ <;> simp
  | cons sg sgs ih =>
    simp only [List.cons_append, segsRewrite, List.append_eq]
    rw [ih]
    cases segRewrite ps u v sg <;> cases segsRewrite ps u v sgs <;>
      cases segsRewrite ps u v l₂ <;> simp [List.append_assoc]

theorem lpAux_segs (ps : List Pattern) (u v s : List Char) :
    ∀ fuel pos, pos ≤ s.length → s.length + 1 ≤ fuel + pos →
      linkifyProseAux ps u v s fuel pos =
        segsRewrite ps u v (inlineSegsAux s fuel pos) := by
  intro fuel
  induction fuel with
  | zero => intro pos h1 h2; omega
  | succ fuel ih =>
    intro pos h1 h2
    rcases Nat.eq_or_lt_of_le h1 with heq | hlt
    · subst heq
      rw [linkifyProseAux, if_pos (le_refl _), inlineSegsAux, if_pos (le_refl _)]
      rfl
    · rw [linkifyProseAux, if_neg (by omega), inlineSegsAux, if_neg (by omega)]
      cases hf : findFrom s [tickChar] pos with
      | none =>
        dsimp only
        cases hm : _match_replace (s.drop pos) ps u v <;>
          simp [segsRewrite, segRewrite, hm]
      | some c0 =>
        dsimp only
        obtain ⟨hc1, hc2, hc3⟩ := findFrom_some_bounds hf
        cases hf2 : findFrom s [tickChar] (c0 + 1) with
        | none =>
          dsimp only
          cases hm : _match_replace (slice s pos c0) ps u v <;>
            simp [segsRewrite, segRewrite, hm]
        | some c1 =>
          dsimp only
          obtain ⟨hd1, hd2, hd3⟩ := findFrom_some_bounds hf2
          rw [ih (c1 + 1) (by omega) (by omega)]
          cases hm : _match_replace (slice s pos c0) ps u v with
          | none => simp [segsRewrite, segRewrite, hm]
          | some seg =>
            cases hrest : segsRewrite ps u v (inlineSegsAux s fuel (c1 + 1)) <;>
              simp [segsRewrite, segRewrite, hm, hrest, List.append_assoc]

theorem lp_segs (ps : List Pattern) (u v s : List Char) :
    linkify_prose ps u v s = segsRewrite ps u v (inlineSegs s) := by
  rw [linkify_prose, inlineSegs]
  split
  · next h =>
    have : s = [] := by
      cases s
      · rfl
      · cases h
    subst this
    rfl
  · exact lpAux_segs ps u v s (s.length + 1) 0 (by omega) (by omega)

theorem lauxSegs (ps : List Pattern) (u v s : List Char) :
    ∀ fuel pos, pos ≤ s.length → s.length + 1 ≤ fuel + pos →
      linkifyAux ps u v s fuel pos =
        segsRewrite ps u v (fenceSegsAux s fuel pos) := by
  intro fuel
  induction fuel with
  | zero => intro pos h1 h2; omega
  | succ fuel ih =>
    intro pos h1 h2
    rcases Nat.eq_or_lt_of_le h1 with heq | hlt
    · subst heq
      rw [linkifyAux, if_pos (le_refl _), fenceSegsAux, if_pos (le_refl _)]
      rfl
    · rw [linkifyAux, if_neg (by omega), fenceSegsAux, if_neg (by omega)]
      cases hf : findFrom s fenceMarker pos with
      | none => exact lp_segs ps u v (s.drop pos)
      | some f0 =>
        dsimp only
        obtain ⟨hc1, hc2, hc3⟩ := findFrom_some_bounds hf
        rw [lp_segs ps u v (slice s pos f0)]
        cases hf2 : findFrom s fenceMarker (f0 + 3) with
        | none =>
          dsimp only
          rw [segsRewrite_append]
          cases hm : segsRewrite ps u v (inlineSegs (slice s pos f0)) <;>
            simp [segsRewrite, segRewrite, hm]
        | some f1 =>
          dsimp only
          obtain ⟨hd1, hd2, hd3⟩ := findFrom_some_bounds hf2
          have hm3 : fenceMarker.length = 3 := rfl
          rw [ih (f1 + 3) (by omega) (by omega), segsRewrite_append]
          cases hm : segsRewrite ps u v (inlineSegs (slice s pos f0)) with
          | none => simp [segsRewrite, segRewrite, hm]
          | some seg =>
            cases hrest : segsRewrite ps u v (fenceSegsAux s fuel (f1 + 3)) <;>
              simp [segsRewrite, segRewrite, hm, hrest, List.append_assoc]

/-- C7: code spans are reproduced byte-for-byte.  `linkify` equals the
segment-wise rendering of its input: the input splits into `fenceSegs`
segments — prose, inline spans with both backticks, fenced blocks with
both triple-backtick markers, and unterminated-fence or unterminated-tick
tails running to the end — where every `code` segment is rendered as
exactly itself (`segRewrite` is the identity on `code`), so no link is
ever placed inside a code span and the delimiters are preserved, while
only `pr` segments pass through the rewriter. -/
theorem linkify_code_spans_verbatim (text : List Char) (ts : Registry)
    (cs cf : List Char) :
    linkify text ts cs cf =
      segsRewrite (_build_patterns ts cs) cs cf (fenceSegs text) := by
  rw [linkify]
  split
  · next h =>
    by_cases htxt : text = []
    · subst htxt
      rfl
    · have hts : ts = [] := by
        cases text
        · exact absurd rfl htxt
        · cases ts
          · rfl
          · cases h
      subst hts
      have hb : _build_patterns ([] : Registry) cs = [] := rfl
      rw [hb, fenceSegs,
        ← lauxSegs [] cs cf text (text.length + 1) 0 (by omega) (by omega),
        laux_nil cs cf text (text.length + 1) 0 (by omega) (by omega),
        List.drop_zero]
  · exact lauxSegs (_build_patterns ts cs) cs cf text (text.length + 1) 0
      (by omega) (by omega)

/-! ### The compiled pattern order (C3) -/

theorem insertDesc_pairwise {p : Pattern} {l : List Pattern}
    (h : List.Pairwise (fun a b => b.plen ≤ a.plen) l) :
    List.Pairwise (fun a b => b.plen ≤ a.plen) (insertDesc p l) := by
  induction l with
  | nil => simp [insertDesc]
  | cons q qs ih =>
    rw [List.pairwise_cons] at h
    obtain ⟨hq, hqs⟩ := h
    rw [insertDesc]
    split
    · next hle =>
      rw [List.pairwise_cons]
      refine ⟨?_, ?_⟩
      · intro x hx
        rcases List.mem_cons.1 hx with rfl | hx
        · exact hle
        · exact le_trans (hq x hx) hle
      · rw [List.pairwise_cons]
        exact ⟨hq, hqs⟩
    · next hgt =>
      rw [List.pairwise_cons]
      refine ⟨?_, ih hqs⟩
      intro x hx
      rcases mem_insertDesc.1 hx with rfl | hx
      · omega
      · exact hq x hx

theorem sortDesc_pairwise (l : List Pattern) :
    List.Pairwise (fun a b => b.plen ≤ a.plen) (sortDesc l) := by
  induction l with
  | nil => simp [sortDesc]
  | cons p ps ih =>
    rw [sortDesc]
    exact insertDesc_pairwise ih

theorem insertDesc_filter (p : Pattern) (l : List Pattern) (n : Nat) :
    (insertDesc p l).filter (fun q => q.plen == n) =
      if p.plen = n then p :: l.filter (fun q => q.plen == n)
      else l.filter (fun q => q.plen == n) := by
  induction l with
  | nil => by_cases hn : p.plen = n <;> simp [insertDesc, hn]
  | cons q qs ih =>
    rw [insertDesc]
    split
    · next hle =>
      by_cases hn : p.plen = n <;> simp [List.filter_cons, hn]
    · next hgt =>
      rw [List.filter_cons, List.filter_cons, ih]
      by_cases hn : p.plen = n
      · have hqn : (q.plen == n) = false := by
          simp only [beq_eq_false_iff_ne, ne_eq]
          omega
        simp [hqn, hn]
      · simp [hn]

theorem sortDesc_filter (l : List Pattern) (n : Nat) :
    (sortDesc l).filter (fun q => q.plen == n) =
      l.filter (fun q => q.plen == n) := by
  induction l with
  | nil => rfl
  | cons p ps ih =>
    rw [sortDesc, insertDesc_filter, List.filter_cons]
    by_cases hn : p.plen = n
    · simp [hn, ih]
    · simp [hn, ih]

/-- Two registries holding the same two equal-length terms "Beta" and
"Alfa", in opposite insertion orders. -/
def tsBetaAlfa : Registry :=
  [("beta".data, ⟨"Beta".data, "beta".data, "accepted".data, "T1".data⟩),
   ("alfa".data, ⟨"Alfa".data, "alfa".data, "accepted".data, "T2".data⟩)]

/-- The reverse insertion order of `tsBetaAlfa`. -/
def tsAlfaBeta : Registry :=
  [("alfa".data, ⟨"Alfa".data, "alfa".data, "accepted".data, "T2".data⟩),
   ("beta".data, ⟨"Beta".data, "beta".data, "accepted".data, "T1".data⟩)]

/-- Counterexample to C3 as stated: for the equal-priority terms "Beta"
and "Alfa" the compiled order follows registry insertion order, not
normalizedKey ascending ("Beta" stays before "Alfa" although "alfa" <
"beta"), and reversing the insertion order changes the compiled order. -/
theorem pattern_order_depends_on_insertion :
    _build_patterns tsBetaAlfa "x".data =
        [⟨4, "Beta".data, "beta".data, "accepted".data⟩,
         ⟨4, "Alfa".data, "alfa".data, "accepted".data⟩] ∧
      _build_patterns tsAlfaBeta "x".data =
        [⟨4, "Alfa".data, "alfa".data, "accepted".data⟩,
         ⟨4, "Beta".data, "beta".data, "accepted".data⟩] ∧
      _build_patterns tsBetaAlfa "x".data ≠ _build_patterns tsAlfaBeta "x".data := by
  decide

/-- C3 (corrected): for every registry and exclude slug the compiled
sequence is ordered by priority (length of matchText) descending, and any
two patterns of equal priority keep their relative registry insertion
order — Python's `list.sort` is stable, so for every length `n` the
subsequence of compiled patterns of priority `n` equals the corresponding
subsequence of the unsorted, insertion-ordered `rawPatterns`; the compiled
order therefore depends on insertion order for equal priorities. -/
theorem pattern_order_sorted_stable (ts : Registry) (cs : List Char) :
    List.Pairwise (fun a b => b.plen ≤ a.plen) (_build_patterns ts cs) ∧
      ∀ n, (_build_patterns ts cs).filter (fun q => q.plen == n) =
        (rawPatterns ts cs).filter (fun q => q.plen == n) :=
  ⟨sortDesc_pairwise _, fun n => sortDesc_filter _ n⟩

/-! ### Duplicate handling in the collection loop (C1) -/

/-- Counterexample to C1 as stated: with the records "Agent" (id T1,
accepted) followed by "agent" (id T2, draft) — same normalizedKey
"agent" — the registry built by the collection loop holds exactly ONE
entry, the LATER record's (display "agent", slug "agent-dup", folder
"draft", id T2): the first-inserted entry has been overwritten and
dropped from the registry, contrary to "keeps the first-inserted entry"
and "no term is silently dropped".  (A warning is surfaced, as recorded
in the second component.) -/
theorem duplicate_overwrites_first :
    (collectTerms [⟨"Agent".data, "T1".data, "accepted".data⟩,
        ⟨"agent".data, "T2".data, "draft".data⟩]).1 =
      [("agent".data,
        ⟨"agent".data, "agent-dup".data, "draft".data, "T2".data⟩)] ∧
    (collectTerms [⟨"Agent".data, "T1".data, "accepted".data⟩,
        ⟨"agent".data, "T2".data, "draft".data⟩]).2 = ["agent".data] := by
  decide

/-- C1 (corrected): when two collected records share a normalizedKey, the
registry registers the LATER record under that key — display, folder and
id of the first-inserted entry are overwritten — with the later record's
slug suffixed "-dup", and a duplicate warning is surfaced; the
first-inserted entry is dropped from the registry (the registry ends with
a single entry for the key). -/
theorem duplicate_keeps_later_entry (r₁ r₂ : RawRecord)
    (h : r₁.term.map Char.toLower = r₂.term.map Char.toLower) :
    List.lookup (r₁.term.map Char.toLower) (collectTerms [r₁, r₂]).1 =
        some ⟨r₂.term, slugify r₂.term ++ "-dup".data, r₂.folder, r₂.id⟩ ∧
      (collectTerms [r₁, r₂]).2 = [r₂.term] ∧
      (collectTerms [r₁, r₂]).1.length = 1 := by
  rw [collectTerms, collectTermsGo]
  simp only [List.lookup_nil, Option.isSome_none, Bool.false_eq_true, if_false,
    dictSet, List.lookup_nil, Option.isSome_none, List.nil_append]
  rw [collectTermsGo]
  simp only [h, List.lookup_cons, beq_self_eq_true, if_true, Option.isSome_some,
    if_true, dictSet, Option.isSome_some, List.map_cons, List.map_nil,
    beq_self_eq_true, collectTermsGo, List.nil_append, List.length_cons,
    List.length_nil]
  simp [List.lookup_cons]

/-- Witness for C1 (corrected) at the concrete duplicate pair
"Agent"/"agent". -/
theorem duplicate_keeps_later_entry_witness :
    ("Agent".data.map Char.toLower = "agent".data.map Char.toLower) ∧
      (List.lookup ("Agent".data.map Char.toLower)
          (collectTerms [⟨"Agent".data, "T1".data, "accepted".data⟩,
            ⟨"agent".data, "T2".data, "draft".data⟩]).1 =
        some ⟨"agent".data, slugify "agent".data ++ "-dup".data,
          "draft".data, "T2".data⟩ ∧
      (collectTerms [⟨"Agent".data, "T1".data, "accepted".data⟩,
          ⟨"agent".data, "T2".data, "draft".data⟩]).2 = ["agent".data] ∧
      (collectTerms [⟨"Agent".data, "T1".data, "accepted".data⟩,
          ⟨"agent".data, "T2".data, "draft".data⟩]).1.length = 1) :=
  ⟨by decide,
    duplicate_keeps_later_entry ⟨"Agent".data, "T1".data, "accepted".data⟩
      ⟨"agent".data, "T2".data, "draft".data⟩ (by decide)⟩

/-! ### `slugify`: replacement versus stripping (C4) -/

theorem ws_not_alnum (c : Char) (h : isPyWs c = true) : lowerAlnum c = false := by
  rw [isPyWs] at h
  simp only [Bool.or_eq_true, beq_iff_eq] at h
  rcases h with ((((h | h) | h) | h) | h) | h <;> subst h <;> rfl

theorem alnum_ne_hyph (c : Char) (h : lowerAlnum c = true) : (c == '-') = false := by
  simp only [beq_eq_false_iff_ne, ne_eq]
  intro he
  subst he
  exact absurd h (by decide)

theorem km_eq_cm (c : Char) :
    (if lowerAlnumHyph c then c else '-') = (if lowerAlnum c then c else '-') := by
  by_cases h1 : lowerAlnum c = true
  · simp [lowerAlnumHyph, h1]
  · by_cases h2 : c = '-'
    · subst h2
      rfl
    · simp [lowerAlnumHyph, h1, h2]

theorem collapse_ws_then_class (s : List Char) :
    (∀ b, collapseRunsGo (fun c => c == '-') '-' b
        ((collapseRunsGo isPyWs '-' false s).map
          (fun c => if lowerAlnum c then c else '-')) =
      collapseRunsGo (fun c => c == '-') '-' b
        (s.map (fun c => if lowerAlnum c then c else '-'))) ∧
    (collapseRunsGo (fun c => c == '-') '-' true
        ((collapseRunsGo isPyWs '-' true s).map
          (fun c => if lowerAlnum c then c else '-')) =
      collapseRunsGo (fun c => c == '-') '-' true
        (s.map (fun c => if lowerAlnum c then c else '-'))) := by
  have hhm : (if lowerAlnum '-' then ('-' : Char) else '-') = '-' := rfl
  induction s with
  | nil => exact ⟨fun b => rfl, rfl⟩
  | cons c cs ih =>
    obtain ⟨ihL, ihM⟩ := ih
    constructor
    · intro b
      by_cases hws : isPyWs c = true
      · have hcm : (if lowerAlnum c then c else '-') = '-' := by
          rw [ws_not_alnum c hws]
          rfl
        simp only [collapseRunsGo, hws, if_true, Bool.false_eq_true, if_false,
          List.map_cons, hhm, hcm, beq_self_eq_true]
        cases b
        · simp only [Bool.false_eq_true, if_false]
          rw [ihM]
        · simp only [if_true]
          rw [ihM]
      · by_cases hal : lowerAlnum c = true
        · have hcm : (if lowerAlnum c then c else '-') = c := by rw [hal]; rfl
          simp only [collapseRunsGo, hws, Bool.false_eq_true, if_false,
            List.map_cons, hcm, alnum_ne_hyph c hal]
          rw [ihL false]
        · have hcm : (if lowerAlnum c then c else '-') = '-' := by
            cases hlc : lowerAlnum c
            · rfl
            · exact absurd hlc hal
          simp only [collapseRunsGo, hws, Bool.false_eq_true, if_false,
            List.map_cons, hcm, beq_self_eq_true, if_true]
          cases b
          · simp only [Bool.false_eq_true, if_false]
            rw [ihL true]
          · simp only [if_true]
            rw [ihL true]
    · by_cases hws : isPyWs c = true
      · have hcm : (if lowerAlnum c then c else '-') = '-' := by
          rw [ws_not_alnum c hws]
          rfl
        simp only [collapseRunsGo, hws, if_true, List.map_cons, hcm,
          beq_self_eq_true]
        exact ihM
      · by_cases hal : lowerAlnum c = true
        · have hcm : (if lowerAlnum c then c else '-') = c := by rw [hal]; rfl
          simp only [collapseRunsGo, hws, Bool.false_eq_true, if_false,
            List.map_cons, hcm, alnum_ne_hyph c hal]
          rw [ihL false]
        · have hcm : (if lowerAlnum c then c else '-') = '-' := by
            cases hlc : lowerAlnum c
            · rfl
            · exact absurd hlc hal
          simp only [collapseRunsGo, hws, Bool.false_eq_true, if_false,
            List.map_cons, hcm, beq_self_eq_true, if_true]
          rw [ihL true]

theorem slugify_eq_amended (term : List Char) :
    slugify term = slugifyAmended term := by
  by_cases h : term.isEmpty = true
  · rw [slugify, slugifyAmended, if_pos h, if_pos h]
  · rw [slugify, slugifyAmended, if_neg h, if_neg h]
    congr 1
    rw [collapseRuns, collapseRuns, collapseRuns]
    simp only [km_eq_cm]
    rw [(collapse_ws_then_class (term.map Char.toLower)).1 false, List.map_map]
    rfl

/-- C4 (corrected): `slugify` lowercases and turns whitespace runs into
single hyphens, but every other non-alphanumeric character is REPLACED by
a hyphen (not stripped) before hyphen runs are collapsed and the ends
trimmed — equivalently, every character whose lowercase form is outside
`[a-z0-9]` becomes a hyphen; the reserved fallback slug "unknown" is
produced only for EMPTY input, while non-empty unmappable input (e.g.
`"!"`) yields the empty string, not the fallback. -/
theorem slugify_characterization :
    (∀ term, slugify term = slugifyAmended term) ∧
      slugify [] = "unknown".data ∧ slugify "!".data = [] :=
  ⟨slugify_eq_amended, by decide, by decide⟩

/-- Counterexample to C4 as stated: on `"a.b"` the code yields `"a-b"`
(the dot is replaced by a hyphen) while the claimed derivation (dot
stripped) yields `"ab"`; and on the unmappable non-empty input `"!"` the
code yields the empty string while the claim requires the reserved
fallback slug. -/
theorem slugify_claim_counterexample :
    slugify "a.b".data = "a-b".data ∧ slugifyClaimC4 "a.b".data = "ab".data ∧
      slugify "a.b".data ≠ slugifyClaimC4 "a.b".data ∧
      slugify "!".data = [] ∧ slugifyClaimC4 "!".data = "unknown".data := by
  decide

end BuildSite
